import Mathlib

/-!
Shallow embedding of the seahorse `Context` flag-resolution engine
(`src/context.rs`) together with the external collaborator contracts it
consumes (`Flag`, `FlagType`, `FlagValue`, `Flag::option_index`,
`Flag::value`), which live outside the provided source and are modelled
from the specification.

`Vec::remove(index)` in Rust panics when `index` is out of range; every
operation that can panic is embedded as an `Option`-returning function,
`none` standing for the abort.
-/

namespace Seahorse

/-- Modelled from the spec: the declared type of a flag, one of
Bool / String / Int / Float (spec section 3, "Flag declaration"). -/
inductive FlagType where
  | Bool
  | String
  | Int
  | Float
deriving DecidableEq

/-- Modelled from the spec: the typed value, "a tagged union over
{Bool(bool), String(text), Int(signed integer), Float(floating point)}"
(spec section 3).  Floating-point values are represented as rationals,
which faithfully carries the decimal literals the engine parses. -/
inductive FlagValue where
  | Bool (b : Bool)
  | String (s : String)
  | Int (i : Int)
  | Float (q : ℚ)
deriving DecidableEq

/-- Modelled from the spec: a flag declaration, "an immutable external
record with `name`, `usage`, `flag_type`" (spec section 3). -/
structure Flag where
  name : String
  usage : String
  flag_type : FlagType
deriving DecidableEq

/-- Helper for the locator: index of the first token equal to the
trigger. -/
def optionIndexAux (trigger : String) : List String → Option Nat
  | [] => none
  | t :: rest =>
    if t == trigger then some 0
    else (optionIndexAux trigger rest).map (· + 1)

/-- Modelled from the spec: the locator collaborator
`locate(tokens, trigger) -> Option<index>` (spec section 6); the trigger
token of a flag named `n` is its switch form `--n` (spec glossary,
"Trigger token"). -/
def Flag.option_index (flag : Flag) (args : List String) : Option Nat :=
  optionIndexAux ("--" ++ flag.name) args

/-- Numeric value of a decimal digit character. -/
def digitVal : Char → Option Nat
  | c =>
    if c = '0' then some 0
    else if c = '1' then some 1
    else if c = '2' then some 2
    else if c = '3' then some 3
    else if c = '4' then some 4
    else if c = '5' then some 5
    else if c = '6' then some 6
    else if c = '7' then some 7
    else if c = '8' then some 8
    else if c = '9' then some 9
    else none

/-- Accumulating decimal parser over a digit list. -/
def parseDigitsAux : List Char → Nat → Option Nat
  | [], acc => some acc
  | c :: cs, acc =>
    match digitVal c with
    | some d => parseDigitsAux cs (acc * 10 + d)
    | none => none

/-- Parse a non-empty all-digit character list as a natural number. -/
def parseNat : List Char → Option Nat
  | [] => none
  | cs => parseDigitsAux cs 0

/-- Modelled from the spec: integer parsing for the conversion
collaborator (optional sign followed by decimal digits). -/
def parseInt (s : String) : Option Int :=
  match s.data with
  | '-' :: rest => (parseNat rest).map (fun n => -(n : Int))
  | cs => (parseNat cs).map (fun n => (n : Int))

/-- Unsigned decimal-literal parser: digits, optionally followed by a
point and more digits, read as a rational. -/
def parseFloatChars (cs : List Char) : Option ℚ :=
  match cs.span (fun c => c != '.') with
  | (intPart, []) => (parseNat intPart).map (fun n => (n : ℚ))
  | (intPart, _ :: fracPart) =>
    match parseNat intPart, parseNat fracPart with
    | some a, some b => some ((a : ℚ) + (b : ℚ) / ((10 : ℚ) ^ fracPart.length))
    | _, _ => none

/-- Modelled from the spec: floating-point parsing for the conversion
collaborator, as a rational value of the decimal literal. -/
def parseFloat (s : String) : Option ℚ :=
  match s.data with
  | '-' :: rest => (parseFloatChars rest).map (fun q => -q)
  | cs => parseFloatChars cs

/-- Modelled from the spec: the conversion collaborator
`convert(flag_type, Option<raw_token>) -> Result<TypedValue, string>`
(spec section 6): a Bool flag converts "no token" to the value true
(spec section 8, boolean round-trip), non-boolean flags parse the
captured token according to the declared type, and a missing or
malformed token yields an error with caller-defined text
(spec sections 6 and 7). -/
def Flag.value (flag : Flag) (val : Option String) : Except String FlagValue :=
  match flag.flag_type with
  | FlagType.Bool => Except.ok (FlagValue.Bool true)
  | FlagType.String =>
    match val with
    | some s => Except.ok (FlagValue.String s)
    | none => Except.error "string value is not found"
  | FlagType.Int =>
    match val with
    | some s =>
      match parseInt s with
      | some n => Except.ok (FlagValue.Int n)
      | none => Except.error ("invalid int value: " ++ s)
    | none => Except.error "int value is not found"
  | FlagType.Float =>
    match val with
    | some s =>
      match parseFloat s with
      | some q => Except.ok (FlagValue.Float q)
      | none => Except.error ("invalid float value: " ++ s)
    | none => Except.error "float value is not found"

/-- Decidable equality for `Except`, used to evaluate concrete runs. -/
instance exceptDecEq {ε α : Type} [DecidableEq ε] [DecidableEq α] :
    DecidableEq (Except ε α)
  | Except.ok a, Except.ok b =>
    if h : a = b then isTrue (by rw [h])
    else isFalse (fun hh => h (by injection hh))
  | Except.ok _, Except.error _ => isFalse (fun hh => Except.noConfusion hh)
  | Except.error _, Except.ok _ => isFalse (fun hh => Except.noConfusion hh)
  | Except.error a, Except.error b =>
    if h : a = b then isTrue (by rw [h])
    else isFalse (fun hh => h (by injection hh))

/-- The `Context` result object of `src/context.rs`: the surviving
positional-argument list `args` and the optional per-flag outcome list
`flags`. -/
structure Context where
  args : List String
  flags : Option (List (String × Except String FlagValue))
deriving DecidableEq

/-- One iteration of the flag loop in `Context::new`
(`src/context.rs`): locate the trigger, remove it, and for a
non-boolean flag remove the following token at the same index unless
the list is empty.  The second `Vec::remove(index)` panics when
`index` is out of range, which the embedding reports as `none`. -/
def processFlag (parsedArgs : List String) (flag : Flag) :
    Option (List String × Option (String × Except String FlagValue)) :=
  match flag.option_index parsedArgs with
  | none => some (parsedArgs, none)
  | some index =>
    let rest := parsedArgs.eraseIdx index
    if flag.flag_type = FlagType.Bool then
      some (rest, some (flag.name, flag.value none))
    else if rest.isEmpty then
      some (rest, some (flag.name, flag.value none))
    else
      match rest[index]? with
      | some tok =>
        some (rest.eraseIdx index, some (flag.name, flag.value (some tok)))
      | none => none

/-- The full flag loop of `Context::new`: process the declarations in
order against the shrinking token list, collecting the outcome entries
in declaration order. -/
def processFlags : List String → List Flag →
    Option (List String × List (String × Except String FlagValue))
  | parsedArgs, [] => some (parsedArgs, [])
  | parsedArgs, flag :: restFlags =>
    match processFlag parsedArgs flag with
    | none => none
    | some (parsed1, entry) =>
      match processFlags parsed1 restFlags with
      | none => none
      | some (parsedFinal, v) =>
        match entry with
        | some e => some (parsedFinal, e :: v)
        | none => some (parsedFinal, v)

/-- `Context::new` (`src/context.rs` lines 27-57): with declarations,
run the flag loop; with no declaration list, keep the token list as the
positional arguments and leave the outcome mapping absent.  `none`
stands for a panic during construction. -/
def Context.new (args : List String) (flags : Option (List Flag)) :
    Option Context :=
  match flags with
  | some fl =>
    match processFlags args fl with
    | some (parsedArgs, v) => some { args := parsedArgs, flags := some v }
    | none => none
  | none => some { args := args, flags := none }

/-- `Context::result_flag_value` (`src/context.rs` lines 60-70): the
first recorded outcome entry whose name matches, if any. -/
def Context.result_flag_value (c : Context) (name : String) :
    Option (Except String FlagValue) :=
  (c.flags.bind (fun flags => flags.find? (fun f => f.1 == name))).map Prod.snd

/-- `Context::bool_flag` (`src/context.rs` lines 88-94). -/
def Context.bool_flag (c : Context) (name : String) : Bool :=
  match c.result_flag_value name with
  | some (Except.ok (FlagValue.Bool val)) => val
  | _ => false

/-- `Context::string_flag` (`src/context.rs` lines 113-119), as its
body and the repository test exercise it: a successful String outcome
is returned, a recorded conversion error is propagated, and every
other case yields the empty-message error. -/
def Context.string_flag (c : Context) (name : String) :
    Except String String :=
  match c.result_flag_value name with
  | some (Except.ok (FlagValue.String val)) => Except.ok val
  | some (Except.error e) => Except.error e
  | _ => Except.error ""

/-- `Context::int_flag` (`src/context.rs` lines 138-144). -/
def Context.int_flag (c : Context) (name : String) : Except String Int :=
  match c.result_flag_value name with
  | some (Except.ok (FlagValue.Int val)) => Except.ok val
  | some (Except.error e) => Except.error e
  | _ => Except.error "hoge"

/-- `Context::float_flag` (`src/context.rs` lines 163-169). -/
def Context.float_flag (c : Context) (name : String) : Except String ℚ :=
  match c.result_flag_value name with
  | some (Except.ok (FlagValue.Float val)) => Except.ok val
  | some (Except.error e) => Except.error e
  | _ => Except.error "hoge"

/-- Discriminator: does the typed value hold a String payload. -/
def isStringVal : FlagValue → Bool
  | FlagValue.String _ => true
  | _ => false

/-- Discriminator: does the typed value hold an Int payload. -/
def isIntVal : FlagValue → Bool
  | FlagValue.Int _ => true
  | _ => false

/-- Discriminator: does the typed value hold a Float payload. -/
def isFloatVal : FlagValue → Bool
  | FlagValue.Float _ => true
  | _ => false

/-! Test fixture of the repository test `tests::context_test`
(`src/context.rs` lines 176-213). -/

/-- The token list of the repository end-to-end test. -/
def testArgs : List String :=
  ["cli", "command", "args", "--bool", "--string", "test",
   "--int", "100", "--float", "1.23"]

/-- The flag declarations of the repository end-to-end test. -/
def testFlags : List Flag :=
  [⟨"bool", "", FlagType.Bool⟩, ⟨"string", "", FlagType.String⟩,
   ⟨"int", "", FlagType.Int⟩, ⟨"float", "", FlagType.Float⟩]

/-! Supporting lemmas about the locator and list surgery. -/

/-- A found index is in range and points at the trigger token. -/
lemma optionIndexAux_some {t : String} {l : List String} {i : Nat}
    (h : optionIndexAux t l = some i) :
    ∃ hi : i < l.length, l.get ⟨i, hi⟩ = t := by
  induction l generalizing i with
  | nil => exact absurd h (by simp [optionIndexAux])
  | cons x xs ih =>
    by_cases hx : (x == t) = true
    · simp only [optionIndexAux, hx, if_true, Option.some.injEq] at h
      subst h
      exact ⟨Nat.succ_pos _, eq_of_beq hx⟩
    · simp only [optionIndexAux, hx, if_false, Bool.false_eq_true] at h
      rcases Option.map_eq_some'.mp h with ⟨j, hj, rfl⟩
      obtain ⟨hjlt, hget⟩ := ih hj
      exact ⟨Nat.succ_lt_succ hjlt, hget⟩

/-- The locator misses exactly when the trigger is not in the list. -/
lemma optionIndexAux_none_iff {t : String} {l : List String} :
    optionIndexAux t l = none ↔ l.contains t = false := by
  induction l with
  | nil => simp [optionIndexAux]
  | cons x xs ih =>
    by_cases hx : (x == t) = true
    · have hx2 : (t == x) = true := by
        rw [beq_iff_eq] at hx ⊢
        exact hx.symm
      simp [optionIndexAux, hx, List.contains, List.elem, hx2]
    · have hxf : (x == t) = false := by
        cases hxx : (x == t) with
        | true => exact absurd hxx hx
        | false => rfl
      have hx2 : (t == x) = false := by
        rw [beq_eq_false_iff_ne] at hxf ⊢
        exact fun he => hxf he.symm
      simp only [optionIndexAux, hxf, if_false, Bool.false_eq_true,
        Option.map_eq_none']
      rw [ih]
      simp [List.contains, List.elem, hx2]

/-- Erasing twice at the same index drops exactly the two consecutive
positions. -/
lemma eraseIdx_eraseIdx_same (l : List String) (i : Nat) :
    (l.eraseIdx i).eraseIdx i = l.take i ++ l.drop (i + 2) := by
  induction l generalizing i with
  | nil => simp [List.eraseIdx]
  | cons x xs ih =>
    cases i with
    | zero =>
      simp only [List.eraseIdx_cons_zero, List.take_zero, List.nil_append]
      rw [List.eraseIdx_eq_take_drop_succ]
      cases xs <;> simp
    | succ n =>
      simp only [List.eraseIdx_cons_succ, List.take_succ_cons,
        List.drop_succ_cons, List.cons_append]
      rw [ih]

/-- Erasing one index shortens a list by at most one. -/
lemma length_le_length_eraseIdx_succ (l : List String) (i : Nat) :
    l.length ≤ (l.eraseIdx i).length + 1 := by
  induction l generalizing i with
  | nil => simp [List.eraseIdx]
  | cons x xs ih =>
    cases i with
    | zero => simp [List.eraseIdx_cons_zero]
    | succ n =>
      have := ih n
      simp only [List.eraseIdx_cons_succ, List.length_cons]
      omega

/-- One engine step only shrinks the token list, and by at most two
tokens (the trigger and at most one value token). -/
lemma processFlag_sublist {l l' : List String} {f : Flag}
    {o : Option (String × Except String FlagValue)}
    (h : processFlag l f = some (l', o)) :
    l'.Sublist l ∧ l.length ≤ l'.length + 2 := by
  rcases hidx : f.option_index l with _ | i
  · simp only [processFlag, hidx, Option.some.injEq, Prod.mk.injEq] at h
    obtain ⟨rfl, rfl⟩ := h
    exact ⟨List.Sublist.refl l, by omega⟩
  · simp only [processFlag, hidx] at h
    split at h
    · simp only [Option.some.injEq, Prod.mk.injEq] at h
      obtain ⟨rfl, rfl⟩ := h
      refine ⟨List.eraseIdx_sublist l i, ?_⟩
      have := length_le_length_eraseIdx_succ l i
      omega
    · split at h
      · simp only [Option.some.injEq, Prod.mk.injEq] at h
        obtain ⟨rfl, rfl⟩ := h
        refine ⟨List.eraseIdx_sublist l i, ?_⟩
        have := length_le_length_eraseIdx_succ l i
        omega
      · split at h
        · simp only [Option.some.injEq, Prod.mk.injEq] at h
          obtain ⟨rfl, rfl⟩ := h
          refine ⟨(List.eraseIdx_sublist (l.eraseIdx i) i).trans
            (List.eraseIdx_sublist l i), ?_⟩
          have h1 := length_le_length_eraseIdx_succ l i
          have h2 := length_le_length_eraseIdx_succ (l.eraseIdx i) i
          omega
        · cases h

/-- The whole scan only shrinks the token list. -/
lemma processFlags_sublist {args args' : List String} {fl : List Flag}
    {v : List (String × Except String FlagValue)}
    (h : processFlags args fl = some (args', v)) : args'.Sublist args := by
  induction fl generalizing args args' v with
  | nil =>
    simp only [processFlags, Option.some.injEq, Prod.mk.injEq] at h
    obtain ⟨rfl, rfl⟩ := h
    exact List.Sublist.refl _
  | cons flag fs ih =>
    simp only [processFlags] at h
    rcases hp : processFlag args flag with _ | ⟨p1, entry⟩
    · rw [hp] at h
      cases h
    · simp only [hp] at h
      rcases hq : processFlags p1 fs with _ | ⟨pf, v1⟩
      · rw [hq] at h
        cases h
      · simp only [hq] at h
        have hsub1 : p1.Sublist args := (processFlag_sublist hp).1
        have hsub2 : pf.Sublist p1 := ih hq
        cases entry with
        | some e =>
          simp only [Option.some.injEq, Prod.mk.injEq] at h
          obtain ⟨rfl, rfl⟩ := h
          exact hsub2.trans hsub1
        | none =>
          simp only [Option.some.injEq, Prod.mk.injEq] at h
          obtain ⟨rfl, rfl⟩ := h
          exact hsub2.trans hsub1

/-- Erasing the position that holds `a` lowers the count of `a` by
exactly one. -/
lemma count_eraseIdx_get :
    ∀ (l : List String) (i : Nat) (hi : i < l.length) (a : String),
      l.get ⟨i, hi⟩ = a →
      (l.eraseIdx i).count a + 1 = l.count a := by
  intro l
  induction l with
  | nil =>
    intro i hi
    exact absurd hi (Nat.not_lt_zero i)
  | cons x xs ih =>
    intro i hi a ha
    cases i with
    | zero =>
      simp only [List.eraseIdx_cons_zero]
      rw [← ha]
      exact (List.count_cons_self x xs).symm
    | succ n =>
      have ihn := ih n (Nat.lt_of_succ_lt_succ hi) a ha
      simp only [List.eraseIdx_cons_succ, List.count_cons]
      split <;> omega

/-- A step that records an outcome entry removed an occurrence of its
own trigger token: the entry carries the flag's name and the count of
the trigger strictly drops. -/
lemma processFlag_count_of_entry {l l' : List String} {f : Flag}
    {nm : String} {e : Except String FlagValue}
    (h : processFlag l f = some (l', some (nm, e))) :
    nm = f.name ∧
      l'.count ("--" ++ f.name) < l.count ("--" ++ f.name) := by
  rcases hidx : f.option_index l with _ | i
  · simp only [processFlag, hidx, Option.some.injEq, Prod.mk.injEq] at h
    exact absurd h.2 (by simp)
  · obtain ⟨hi, hget⟩ := optionIndexAux_some hidx
    have hcount : (l.eraseIdx i).count ("--" ++ f.name) + 1 =
        l.count ("--" ++ f.name) := count_eraseIdx_get l i hi _ hget
    simp only [processFlag, hidx] at h
    split at h
    · simp only [Option.some.injEq, Prod.mk.injEq] at h
      obtain ⟨rfl, rfl, rfl⟩ := h
      exact ⟨rfl, by omega⟩
    · split at h
      · simp only [Option.some.injEq, Prod.mk.injEq] at h
        obtain ⟨rfl, rfl, rfl⟩ := h
        exact ⟨rfl, by omega⟩
      · split at h
        · simp only [Option.some.injEq, Prod.mk.injEq] at h
          obtain ⟨rfl, rfl, rfl⟩ := h
          have hsub := (List.eraseIdx_sublist (l.eraseIdx i) i).count_le
            ("--" ++ f.name)
          exact ⟨rfl, by omega⟩
        · cases h

/-- Across the whole scan, a flag that produced an outcome entry had
one occurrence of its trigger removed from the surviving list. -/
lemma processFlags_count {args args' : List String} {fl : List Flag}
    {v : List (String × Except String FlagValue)} {nm : String}
    {e : Except String FlagValue}
    (h : processFlags args fl = some (args', v)) (hmem : (nm, e) ∈ v) :
    args'.count ("--" ++ nm) < args.count ("--" ++ nm) := by
  induction fl generalizing args args' v with
  | nil =>
    simp only [processFlags, Option.some.injEq, Prod.mk.injEq] at h
    obtain ⟨-, h2⟩ := h
    rw [← h2] at hmem
    cases hmem
  | cons flag fs ih =>
    simp only [processFlags] at h
    rcases hp : processFlag args flag with _ | ⟨p1, entry⟩
    · rw [hp] at h
      cases h
    · simp only [hp] at h
      rcases hq : processFlags p1 fs with _ | ⟨pf, v1⟩
      · rw [hq] at h
        cases h
      · simp only [hq] at h
        have hle : p1.count ("--" ++ nm) ≤ args.count ("--" ++ nm) :=
          (processFlag_sublist hp).1.count_le ("--" ++ nm)
        cases entry with
        | none =>
          simp only [Option.some.injEq, Prod.mk.injEq] at h
          obtain ⟨h1, h2⟩ := h
          rw [← h1]
          rw [← h2] at hmem
          exact Nat.lt_of_lt_of_le (ih hq hmem) hle
        | some e0 =>
          simp only [Option.some.injEq, Prod.mk.injEq] at h
          obtain ⟨h1, h2⟩ := h
          rw [← h1]
          rw [← h2] at hmem
          rcases List.mem_cons.mp hmem with heq | hmem1
          · rcases e0 with ⟨nm0, ee⟩
            have hnm : nm = nm0 := congrArg Prod.fst heq
            obtain ⟨hname, hlt⟩ := processFlag_count_of_entry hp
            have hle2 := (processFlags_sublist hq).count_le ("--" ++ flag.name)
            rw [hnm, hname]
            exact Nat.lt_of_le_of_lt hle2 hlt
          · exact Nat.lt_of_lt_of_le (ih hq hmem1) hle

/-- C2: on the repository test input
`["cli","command","args","--bool","--string","test","--int","100","--float","1.23"]`
with declarations bool:Bool, string:String, int:Int, float:Float, the
constructor yields the positional list `["cli","command","args"]`, and
the accessors return true for "bool", Ok "test" for "string", Ok 100
for "int" and Ok 1.23 for "float". -/
theorem claim_c2_end_to_end :
    (Context.new testArgs (some testFlags)).map Context.args =
      some ["cli", "command", "args"] ∧
    (Context.new testArgs (some testFlags)).map (fun c => c.bool_flag "bool") =
      some true ∧
    (Context.new testArgs (some testFlags)).map
      (fun c => c.string_flag "string") = some (Except.ok "test") ∧
    (Context.new testArgs (some testFlags)).map (fun c => c.int_flag "int") =
      some (Except.ok 100) ∧
    (Context.new testArgs (some testFlags)).map
      (fun c => c.float_flag "float") = some (Except.ok (123 / 100 : ℚ)) := by
  refine ⟨by decide, by decide, by decide, by decide, ?_⟩
  have h : (Context.new testArgs (some testFlags)).map
      (fun c => c.float_flag "float") =
      some (Except.ok ((1 : ℚ) + (23 : ℚ) / (10 : ℚ) ^ (2 : Nat))) := rfl
  rw [h]
  simp only [Option.some.injEq, Except.ok.injEq]
  norm_num

/-- C1 counterexample: on the repository's own `argument_fail` input,
where the non-boolean flag "string" has its trigger as the last token
while other tokens remain, the constructor performs an out-of-range
removal and aborts (the embedding returns `none`), so construction
does not always avoid aborting. -/
theorem claim_c1_counterexample :
    Context.new ["cli", "command", "args", "--bool", "--string"]
      (some [⟨"bool", "", FlagType.Bool⟩, ⟨"string", "", FlagType.String⟩]) =
      none := by decide

/-- C1 (amended): when a non-boolean flag's trigger is the last token
of the current list, the value is treated as absent ("no token") only
when the trigger was the only token left; when other tokens remain the
second removal is out of range and construction aborts. -/
theorem claim_c1_amended (l : List String) (flag : Flag) (i : Nat)
    (hty : flag.flag_type ≠ FlagType.Bool)
    (hidx : flag.option_index l = some i) (hlast : i + 1 = l.length) :
    (l.length = 1 →
      processFlag l flag = some ([], some (flag.name, flag.value none))) ∧
    (1 < l.length → processFlag l flag = none) := by
  obtain ⟨hlt, -⟩ := optionIndexAux_some hidx
  have hlen : (l.eraseIdx i).length = l.length - 1 :=
    List.length_eraseIdx_of_lt hlt
  constructor
  · intro h1
    have hrest : l.eraseIdx i = [] := by
      apply List.eq_nil_of_length_eq_zero
      omega
    simp [processFlag, hidx, hty, hrest]
  · intro h2
    have hne : (l.eraseIdx i).isEmpty = false := by
      cases hv : (l.eraseIdx i).isEmpty with
      | false => rfl
      | true =>
        exfalso
        have h0 := List.isEmpty_iff.mp hv
        have : (l.eraseIdx i).length = 0 := by rw [h0]; rfl
        omega
    have hnone : (l.eraseIdx i)[i]? = none := by
      apply List.getElem?_eq_none
      omega
    simp [processFlag, hidx, hty, hne, hnone]

/-- Witness for the amended C1: with tokens `["a","--x"]` and a String
flag "x" whose trigger is the last token, construction of the step
aborts. -/
theorem claim_c1_amended_witness :
    processFlag ["a", "--x"] ⟨"x", "", FlagType.String⟩ = none :=
  (claim_c1_amended ["a", "--x"] ⟨"x", "", FlagType.String⟩ 1 (by decide)
    (by decide) (by decide)).2 (by decide)

/-- C8 counterexample: with tokens `["--dup","--dup","7"]` and two
declarations named "dup" (Bool first, Int second), both are found and
both record an outcome, but lookup returns the outcome of the earlier
Bool declaration (`Ok true`), and `int_flag` returns the placeholder
error — not the later declaration's outcome `Ok 7` — so
last-declared-wins is false. -/
theorem claim_c8_counterexample :
    (Context.new ["--dup", "--dup", "7"]
      (some [⟨"dup", "", FlagType.Bool⟩, ⟨"dup", "", FlagType.Int⟩])).map
      (fun c => c.result_flag_value "dup") =
      some (some (Except.ok (FlagValue.Bool true))) ∧
    (Context.new ["--dup", "--dup", "7"]
      (some [⟨"dup", "", FlagType.Bool⟩, ⟨"dup", "", FlagType.Int⟩])).map
      (fun c => c.int_flag "dup") = some (Except.error "hoge") ∧
    (some (some (Except.ok (FlagValue.Bool true))) :
        Option (Option (Except String FlagValue))) ≠
      some (some (Except.ok (FlagValue.Int 7))) := by decide

/-- C8 (amended): when two outcome entries share a name, an accessor
lookup observes the outcome of the earliest recorded entry (entries
are recorded in declaration order), so first-declared-wins for
duplicate names. -/
theorem claim_c8_amended (a : List String)
    (pre post : List (String × Except String FlagValue))
    (name : String) (e : Except String FlagValue)
    (hpre : ∀ p ∈ pre, p.1 ≠ name) :
    (Context.mk a (some (pre ++ (name, e) :: post))).result_flag_value name =
      some e := by
  revert hpre
  induction pre with
  | nil =>
    intro _
    show (List.find? (fun f => f.1 == name) ((name, e) :: post)).map
      Prod.snd = some e
    rw [List.find?_cons_of_pos]
    · rfl
    · simp
  | cons p ps ih =>
    intro hpre
    have hp : ¬((fun f : String × Except String FlagValue => f.1 == name) p =
        true) := by
      simp only [beq_iff_eq]
      exact hpre p (List.mem_cons_self p ps)
    show (List.find? (fun f => f.1 == name)
      ((p :: ps) ++ (name, e) :: post)).map Prod.snd = some e
    rw [List.cons_append,
      @List.find?_cons_of_neg _ (fun f => f.1 == name) p
        (ps ++ (name, e) :: post) hp]
    exact ih (fun q hq => hpre q (List.mem_cons_of_mem p hq))

/-- Witness for the amended C8: the earlier of two "dup"-like entries
is the one lookup returns. -/
theorem claim_c8_amended_witness :
    (Context.mk ([] : List String)
      (some [("a", Except.ok (FlagValue.Bool true)),
             ("b", Except.ok (FlagValue.Int 7))])).result_flag_value "b" =
      some (Except.ok (FlagValue.Int 7)) :=
  claim_c8_amended [] [("a", Except.ok (FlagValue.Bool true))] [] "b"
    (Except.ok (FlagValue.Int 7)) (by decide)

/-- C4: bool_flag returns true exactly when an outcome entry exists
for the name, is a success, and holds the Bool value true; in every
other case (no entry, error outcome, non-Bool success, stored false)
it returns false, and it is a total function (never fails). -/
theorem claim_c4_bool_flag (c : Context) (name : String) :
    c.bool_flag name = true ↔
      c.result_flag_value name = some (Except.ok (FlagValue.Bool true)) := by
  unfold Context.bool_flag
  cases h : c.result_flag_value name with
  | none => simp
  | some r =>
    cases r with
    | error e => simp
    | ok v =>
      cases v with
      | Bool b => cases b <;> simp
      | String s => simp
      | Int n => simp
      | Float q => simp

/-- C5: string_flag returns the text of a successful String outcome,
propagates a recorded conversion-failure message, and returns the
empty-message error both when the outcome is absent and when it holds
a value of a different type, so those two causes are
indistinguishable. -/
theorem claim_c5_string_flag (c : Context) (name : String) :
    (∀ s, c.result_flag_value name = some (Except.ok (FlagValue.String s)) →
      c.string_flag name = Except.ok s) ∧
    (∀ e, c.result_flag_value name = some (Except.error e) →
      c.string_flag name = Except.error e) ∧
    (c.result_flag_value name = none →
      c.string_flag name = Except.error "") ∧
    (∀ v, c.result_flag_value name = some (Except.ok v) →
      isStringVal v = false → c.string_flag name = Except.error "") := by
  refine ⟨?_, ?_, ?_, ?_⟩
  · intro s h
    simp [Context.string_flag, h]
  · intro e h
    simp [Context.string_flag, h]
  · intro h
    simp [Context.string_flag, h]
  · intro v h hv
    cases v <;> simp_all [Context.string_flag, isStringVal]

/-- Witness for C5: a present but Int-typed outcome makes string_flag
return the empty-message error. -/
theorem claim_c5_string_flag_witness :
    (Context.mk ([] : List String)
      (some [("a", Except.ok (FlagValue.Int 3))])).string_flag "a" =
      Except.error "" :=
  (claim_c5_string_flag
    (Context.mk ([] : List String) (some [("a", Except.ok (FlagValue.Int 3))]))
    "a").2.2.2 (FlagValue.Int 3) (by decide) (by decide)

/-- C6: int_flag and float_flag return the payload of a successful
outcome of their own type, propagate a recorded conversion-failure
message verbatim, and return the same fixed placeholder error "hoge"
both when the outcome is absent and when it holds a value of a
different type. -/
theorem claim_c6_int_float_flag (c : Context) (name : String) :
    (∀ n, c.result_flag_value name = some (Except.ok (FlagValue.Int n)) →
      c.int_flag name = Except.ok n) ∧
    (∀ q, c.result_flag_value name = some (Except.ok (FlagValue.Float q)) →
      c.float_flag name = Except.ok q) ∧
    (∀ e, c.result_flag_value name = some (Except.error e) →
      c.int_flag name = Except.error e ∧
      c.float_flag name = Except.error e) ∧
    (c.result_flag_value name = none →
      c.int_flag name = Except.error "hoge" ∧
      c.float_flag name = Except.error "hoge") ∧
    (∀ v, c.result_flag_value name = some (Except.ok v) →
      isIntVal v = false → c.int_flag name = Except.error "hoge") ∧
    (∀ v, c.result_flag_value name = some (Except.ok v) →
      isFloatVal v = false → c.float_flag name = Except.error "hoge") := by
  refine ⟨?_, ?_, ?_, ?_, ?_, ?_⟩
  · intro n h
    simp [Context.int_flag, h]
  · intro q h
    simp [Context.float_flag, h]
  · intro e h
    exact ⟨by simp [Context.int_flag, h], by simp [Context.float_flag, h]⟩
  · intro h
    exact ⟨by simp [Context.int_flag, h], by simp [Context.float_flag, h]⟩
  · intro v h hv
    cases v <;> simp_all [Context.int_flag, isIntVal]
  · intro v h hv
    cases v <;> simp_all [Context.float_flag, isFloatVal]

/-- Witness for C6: a present but Bool-typed outcome makes both
int_flag and float_flag return the placeholder error "hoge". -/
theorem claim_c6_int_float_flag_witness :
    (Context.mk ([] : List String)
      (some [("a", Except.ok (FlagValue.Bool true))])).int_flag "a" =
      Except.error "hoge" ∧
    (Context.mk ([] : List String)
      (some [("a", Except.ok (FlagValue.Bool true))])).float_flag "a" =
      Except.error "hoge" :=
  ⟨(claim_c6_int_float_flag
      (Context.mk ([] : List String)
        (some [("a", Except.ok (FlagValue.Bool true))])) "a").2.2.2.2.1
      (FlagValue.Bool true) (by decide) (by decide),
   (claim_c6_int_float_flag
      (Context.mk ([] : List String)
        (some [("a", Except.ok (FlagValue.Bool true))])) "a").2.2.2.2.2
      (FlagValue.Bool true) (by decide) (by decide)⟩

/-- C7: with no declaration list the constructor does no scanning (the
positional list is the input list and the outcome mapping is absent,
not empty), lookups always miss, and every accessor returns the same
lookup-miss result it returns on any context whose lookup misses the
name (for example one built from declarations none of which matched). -/
theorem claim_c7_no_declarations (args : List String) :
    Context.new args none = some (Context.mk args none) ∧
    (∀ name : String,
      (Context.mk args none).result_flag_value name = none) ∧
    (∀ (name : String) (c : Context), c.result_flag_value name = none →
      (Context.mk args none).bool_flag name = c.bool_flag name ∧
      (Context.mk args none).string_flag name = c.string_flag name ∧
      (Context.mk args none).int_flag name = c.int_flag name ∧
      (Context.mk args none).float_flag name = c.float_flag name) := by
  refine ⟨rfl, fun name => rfl, ?_⟩
  intro name c h
  have hm : (Context.mk args none).result_flag_value name = none := rfl
  exact ⟨by simp [Context.bool_flag, hm, h],
    by simp [Context.string_flag, hm, h],
    by simp [Context.int_flag, hm, h],
    by simp [Context.float_flag, hm, h]⟩

/-- Witness for C7: the no-declaration context over ["x"] and a
declared-but-nothing-found context agree on all four accessors for an
undeclared name. -/
theorem claim_c7_no_declarations_witness :
    (Context.mk ["x"] none).bool_flag "n" =
      (Context.mk ["y"] (some [])).bool_flag "n" ∧
    (Context.mk ["x"] none).string_flag "n" =
      (Context.mk ["y"] (some [])).string_flag "n" ∧
    (Context.mk ["x"] none).int_flag "n" =
      (Context.mk ["y"] (some [])).int_flag "n" ∧
    (Context.mk ["x"] none).float_flag "n" =
      (Context.mk ["y"] (some [])).float_flag "n" :=
  (claim_c7_no_declarations ["x"]).2.2 "n" (Context.mk ["y"] (some []))
    (by decide)

/-- C9: for every token list, declaring one Bool flag makes bool_flag
return true exactly when the flag's trigger token occurs anywhere in
the input (and false when it is omitted); construction always
succeeds. -/
theorem claim_c9_bool_round_trip (args : List String) (name usage : String) :
    (Context.new args (some [⟨name, usage, FlagType.Bool⟩])).map
      (fun c => c.bool_flag name) = some (args.contains ("--" ++ name)) := by
  cases h : optionIndexAux ("--" ++ name) args with
  | none =>
    have hc : args.contains ("--" ++ name) = false :=
      optionIndexAux_none_iff.mp h
    rw [hc]
    simp [Context.new, processFlags, processFlag, Flag.option_index, h,
      Context.bool_flag, Context.result_flag_value]
  | some i =>
    obtain ⟨hi, hget⟩ := optionIndexAux_some h
    have hmem : ("--" ++ name) ∈ args := hget ▸ List.get_mem args i hi
    have hc : args.contains ("--" ++ name) = true := by
      show List.elem ("--" ++ name) args = true
      exact List.elem_iff.mpr hmem
    rw [hc]
    simp [Context.new, processFlags, processFlag, Flag.option_index, h,
      Context.bool_flag, Context.result_flag_value, Flag.value, List.find?]

/-- C3: positional-list purity.  Per step, when a flag's trigger is
identified at index i, the surviving list is exactly the current list
with position i (the identified trigger occurrence) and, when a value
was consumed, position i+1 (the consumed value occurrence) deleted —
so neither identified occurrence appears in the output.  Globally,
every flag that produced an outcome entry had an occurrence of its
trigger token removed: its count in the positional list returned by
the constructor is strictly below its count in the input. -/
theorem claim_c3_positional_purity :
    (∀ (l : List String) (f : Flag) (l' : List String)
        (o : Option (String × Except String FlagValue)) (i : Nat),
        processFlag l f = some (l', o) → f.option_index l = some i →
        ∃ c, c ≤ 1 ∧ l' = l.take i ++ l.drop (i + 1 + c)) ∧
    (∀ (args : List String) (fl : List Flag) (ctx : Context)
        (v : List (String × Except String FlagValue)) (nm : String)
        (e : Except String FlagValue),
        Context.new args (some fl) = some ctx → ctx.flags = some v →
        (nm, e) ∈ v →
        ctx.args.count ("--" ++ nm) < args.count ("--" ++ nm)) := by
  constructor
  · intro l f l' o i h hidx
    simp only [processFlag, hidx] at h
    split at h
    · simp only [Option.some.injEq, Prod.mk.injEq] at h
      obtain ⟨h1, -⟩ := h
      exact ⟨0, Nat.zero_le 1,
        by rw [← h1]; exact List.eraseIdx_eq_take_drop_succ l i⟩
    · split at h
      · simp only [Option.some.injEq, Prod.mk.injEq] at h
        obtain ⟨h1, -⟩ := h
        exact ⟨0, Nat.zero_le 1,
          by rw [← h1]; exact List.eraseIdx_eq_take_drop_succ l i⟩
      · split at h
        · simp only [Option.some.injEq, Prod.mk.injEq] at h
          obtain ⟨h1, -⟩ := h
          exact ⟨1, Nat.le_refl 1,
            by rw [← h1]; exact eraseIdx_eraseIdx_same l i⟩
        · cases h
  · intro args fl ctx v nm e hnew hflags hmem
    simp only [Context.new] at hnew
    rcases hpf : processFlags args fl with _ | ⟨pa, vv⟩
    · rw [hpf] at hnew
      cases hnew
    · simp only [hpf, Option.some.injEq] at hnew
      have hv : vv = v := by
        rw [← hnew] at hflags
        exact Option.some.inj hflags
      rw [← hnew]
      show pa.count ("--" ++ nm) < args.count ("--" ++ nm)
      exact processFlags_count hpf (hv.symm ▸ hmem)

/-- Witness for C3: consuming the String flag "a" from
`["--a","v","w"]` removes exactly positions 0 and 1 (trigger and
value), and the surviving list holds strictly fewer occurrences of the
trigger token than the input. -/
theorem claim_c3_positional_purity_witness :
    (∃ c, c ≤ 1 ∧ ["w"] =
      (["--a", "v", "w"] : List String).take 0 ++
        (["--a", "v", "w"] : List String).drop (0 + 1 + c)) ∧
    (Context.mk ["w"]
        (some [("a", Except.ok (FlagValue.String "v"))])).args.count
        ("--" ++ "a") <
      (["--a", "v", "w"] : List String).count ("--" ++ "a") :=
  ⟨claim_c3_positional_purity.1 ["--a", "v", "w"] ⟨"a", "", FlagType.String⟩
      ["w"] (some ("a", Except.ok (FlagValue.String "v"))) 0 (by decide)
      (by decide),
   claim_c3_positional_purity.2 ["--a", "v", "w"] [⟨"a", "", FlagType.String⟩]
      (Context.mk ["w"] (some [("a", Except.ok (FlagValue.String "v"))]))
      [("a", Except.ok (FlagValue.String "v"))] "a"
      (Except.ok (FlagValue.String "v")) (by decide) (by decide) (by decide)⟩

/-- C10: the positional list produced by the constructor is a
subsequence of the input token list (order preserved, no token
introduced), and each processed declaration removes at most two tokens
from the current list. -/
theorem claim_c10_shrinks :
    (∀ (args : List String) (ofl : Option (List Flag)) (ctx : Context),
        Context.new args ofl = some ctx → ctx.args.Sublist args) ∧
    (∀ (l : List String) (f : Flag) (l' : List String)
        (o : Option (String × Except String FlagValue)),
        processFlag l f = some (l', o) →
        l'.Sublist l ∧ l.length ≤ l'.length + 2) := by
  constructor
  · intro args ofl ctx hnew
    cases ofl with
    | none =>
      simp only [Context.new, Option.some.injEq] at hnew
      rw [← hnew]
    | some fl =>
      simp only [Context.new] at hnew
      rcases hpf : processFlags args fl with _ | ⟨pa, vv⟩
      · rw [hpf] at hnew
        cases hnew
      · simp only [hpf, Option.some.injEq] at hnew
        rw [← hnew]
        exact processFlags_sublist hpf
  · intro l f l' o h
    exact processFlag_sublist h

/-- Witness for C10: processing the Bool flag "a" on `["--a","b"]`
yields the sublist `["b"]` and removes at most two tokens. -/
theorem claim_c10_shrinks_witness :
    (Context.mk ["b"]
      (some [("a", Except.ok (FlagValue.Bool true))])).args.Sublist
      ["--a", "b"] ∧
    ((["b"] : List String).Sublist ["--a", "b"] ∧
      (["--a", "b"] : List String).length ≤ (["b"] : List String).length + 2) :=
  ⟨claim_c10_shrinks.1 ["--a", "b"] (some [⟨"a", "", FlagType.Bool⟩])
      (Context.mk ["b"] (some [("a", Except.ok (FlagValue.Bool true))]))
      (by decide),
   claim_c10_shrinks.2 ["--a", "b"] ⟨"a", "", FlagType.Bool⟩ ["b"]
      (some ("a", Except.ok (FlagValue.Bool true))) (by decide)⟩

end Seahorse
